import Mathlib

/-!
Shallow embedding of `linting/utils/src/lib.rs` (ink! dylint utilities).

The source is a small recognition layer over rustc's resolved HIR. We embed
the HIR fragments the library inspects:

* `ItemId`, `HirId`, `BodyId` are opaque comparable tokens, modelled as `Nat`.
* `Res` is a name-resolution result. rustc's `Res` has further variants
  (`PrimTy`, `SelfTyParam`, ...); they play no distinguished role here since
  the code only compares `Res` values structurally, so we keep the resolved
  variant `Def` (carrying the target declaration id) and the
  failed-resolution variant `Err`.
* Types (`Ty`/`TyKind`/`QPath`) keep the variants the source matches on
  (`TyKind::Path`, `TyKind::Tup`, `QPath::Resolved` with its ignored
  self-type qualifier) plus a catch-all `other` for all remaining variants.
* `ItemKind` keeps `Struct` (payload never inspected), `Const` (declared
  type, generics placeholder, body id), `Impl`, and a catch-all `other`.
* The `LateContext`/`TyCtxt` query surface is a `Context` record of pure
  lookup functions: item by id, rendered attribute text by `HirId`
  (the source renders attributes with `format!("{:?}", ...)` and does a
  substring test, so the rendering is modelled as the string itself),
  body by `BodyId`, and definition path by def-id (backing
  `match_def_path`).  `tcx.impl_trait_ref` on an impl item is `Some` exactly
  when the HIR impl has an `of_trait`, with the same trait def-id, so it is
  modelled by reading `of_trait` from the impl.
-/

namespace InkUtils

abbrev ItemId := Nat

abbrev HirId := Nat

abbrev BodyId := Nat

abbrev DefId := Nat

/-- Name-resolution result attached to a resolved path (rustc `Res`). -/
inductive Res where
  | Def : DefId → Res
  | Err : Res
deriving DecidableEq, Repr

/-- A resolved path: its resolution plus the surface spelling (segments).
The source never inspects the segments, only `res`. -/
structure Path where
  res : Res
  segments : List String
deriving Repr

mutual

inductive Ty where
  | mk : TyKind → Ty

inductive TyKind where
  | Path : QPath → TyKind
  | Tup : List Ty → TyKind
  | other : TyKind

inductive QPath where
  | Resolved : Option Ty → InkUtils.Path → QPath
  | other : QPath

end

/-- Projection mirroring the `.kind` field of rustc's `Ty`. -/
def Ty.kind : Ty → TyKind
  | Ty.mk k => k

/-- Trait reference of a trait impl; only its def-id is ever inspected
(via `match_def_path`). -/
structure TraitRef where
  trait_def_id : DefId
deriving DecidableEq, Repr

/-- Payload of `ItemKind::Impl`: the implemented trait, if any, and the
self type. Remaining fields (generics, items, ...) are never inspected. -/
structure Impl where
  of_trait : Option TraitRef
  self_ty : Ty

inductive ItemKind where
  | Struct : ItemKind
  | Const : Ty → Unit → BodyId → ItemKind
  | Impl : InkUtils.Impl → ItemKind
  | other : ItemKind

/-- A resolved item: its HIR node handle and discriminated kind. -/
structure Item where
  hir_id : HirId
  kind : ItemKind

inductive StmtKind where
  | Item : ItemId → StmtKind
  | other : StmtKind

structure Stmt where
  kind : StmtKind

structure Block where
  stmts : List Stmt

inductive ExprKind where
  | Block : InkUtils.Block → ExprKind
  | other : ExprKind

structure Expr where
  kind : ExprKind

structure Body where
  value : Expr

/-- Read-only query surface of `LateContext`/`TyCtxt` used by the library. -/
structure Context where
  items : ItemId → Item
  attrs : HirId → String
  bodies : BodyId → Body
  def_path : DefId → List String

/-- Substring containment on strings, mirroring Rust `str::contains`. -/
def str_contains (s pat : String) : Bool :=
  (List.range (s.toList.length + 1)).any fun i =>
    (s.toList.drop i).take pat.toList.length == pat.toList

/-- Mirrors `clippy_utils::match_def_path`: the definition's fully
qualified path equals the given segment list. -/
def match_def_path (cx : Context) (did : DefId) (path : List String) : Bool :=
  cx.def_path did == path

def INK_STORAGE_1 : String := "__ink_dylint_Storage"

def INK_STORAGE_2 : String := "fortanix"

/-- Returns `true` iff the ink storage attribute is defined for the given
HIR node: the rendered attribute text contains either marker token. -/
def has_storage_attr (cx : Context) (hir : HirId) : Bool :=
  let attrs := cx.attrs hir
  str_contains attrs INK_STORAGE_1 || str_contains attrs INK_STORAGE_2

/-- Returns the `ItemId` of the structure annotated with `#[ink(storage)]`:
first item that has the storage attribute and is a struct. -/
def find_storage_struct (cx : Context) (item_ids : List ItemId) : Option ItemId :=
  item_ids.find? fun item_id =>
    let item := cx.items item_id
    has_storage_attr cx item.hir_id &&
      match item.kind with
      | ItemKind.Struct => true
      | _ => false

/-- Returns the `ItemId`s defined inside the code block of
`const _: () = {}`: requires a `Const` item of unit type whose body is a
block, then folds over the block statements pushing item statements. -/
def items_in_unnamed_const (cx : Context) (id : ItemId) : List ItemId :=
  match (cx.items id).kind with
  | ItemKind.Const ty _ body_id =>
    match ty.kind with
    | TyKind.Tup [] =>
      let body := cx.bodies body_id
      match body.value.kind with
      | ExprKind.Block block =>
        block.stmts.foldl
          (fun acc stmt =>
            match stmt.kind with
            | StmtKind.Item i => acc ++ [i]
            | _ => acc)
          []
      | _ => []
    | _ => []
  | _ => []

/-- Collects all the `ItemId`s in nested `const _: () = {}`: each input id
is pushed, then the ids nested in it are appended. -/
def expand_unnamed_consts (cx : Context) (item_ids : List ItemId) : List ItemId :=
  item_ids.foldl
    (fun acc item_id => (acc ++ [item_id]) ++ items_in_unnamed_const cx item_id)
    []

/-- Finds the type of the struct that implements a contract with
user-defined code: the self type of the first impl whose implemented
trait is `ink_env::contract::ContractEnv`. -/
def find_contract_ty_hir (cx : Context) (item_ids : List ItemId) : Option Ty :=
  item_ids.findSome? fun item_id =>
    let item := cx.items item_id
    match item.kind with
    | ItemKind.Impl item_impl =>
      match item_impl.of_trait with
      | some trait_ref =>
        if match_def_path cx trait_ref.trait_def_id
            ["ink_env", "contract", "ContractEnv"] then
          some item_impl.self_ty
        else
          none
      | none => none
    | _ => none

/-- Compares types of two user-defined structs: both must be resolved path
types, and their resolutions must be equal. -/
def eq_hir_struct_tys (lhs : Ty) (rhs : Ty) : Bool :=
  match lhs.kind, rhs.kind with
  | TyKind.Path (QPath.Resolved _ lhs_path), TyKind.Path (QPath.Resolved _ rhs_path) =>
    lhs_path.res == rhs_path.res
  | _, _ => false

/-- Finds an ID of the implementation of the contract struct containing
user-defined code: first finds the contract type (returning `none` if
absent), then the first non-trait impl with that self type. -/
def find_contract_impl_id (cx : Context) (item_ids : List ItemId) : Option ItemId :=
  match find_contract_ty_hir cx item_ids with
  | none => none
  | some contract_struct_ty =>
    item_ids.find? fun item_id =>
      let item := cx.items item_id
      match item.kind with
      | ItemKind.Impl item_impl =>
        item_impl.of_trait.isNone &&
          eq_hir_struct_tys contract_struct_ty item_impl.self_ty
      | _ => false

/-!
General list lemmas used to characterise the first-match searches.
-/

theorem find?_first_index {α : Type} (p : α → Bool) :
    ∀ (l : List α) (a : α), l.find? p = some a →
      ∃ n, ∃ hn : n < l.length, l.get ⟨n, hn⟩ = a ∧ p a = true ∧
        ∀ m, ∀ hm : m < l.length, m < n → p (l.get ⟨m, hm⟩) = false := by
  intro l
  induction l with
  | nil => intro a h; simp [List.find?] at h
  | cons x xs ih =>
    intro a h
    by_cases hp : p x = true
    · rw [List.find?] at h
      rw [hp] at h
      injection h with h
      subst h
      exact ⟨0, by simp, rfl, hp, fun m hm hlt => absurd hlt (Nat.not_lt_zero m)⟩
    · rw [List.find?] at h
      rw [Bool.not_eq_true] at hp
      rw [hp] at h
      obtain ⟨n, hn, hget, hpa, hbefore⟩ := ih a h
      refine ⟨n + 1, by simpa using Nat.succ_lt_succ hn, hget, hpa, ?_⟩
      intro m hm hlt
      match m with
      | 0 => exact hp
      | Nat.succ k =>
        exact hbefore k (Nat.lt_of_succ_lt_succ hm) (Nat.lt_of_succ_lt_succ hlt)

theorem find?_some_of_mem {α : Type} (p : α → Bool) :
    ∀ (l : List α) (a : α), a ∈ l → p a = true →
      ∃ b, l.find? p = some b := by
  intro l
  induction l with
  | nil => intro a h; simp at h
  | cons x xs ih =>
    intro a hmem hpa
    by_cases hp : p x = true
    · exact ⟨x, by rw [List.find?, hp]⟩
    · rw [Bool.not_eq_true] at hp
      rcases List.mem_cons.mp hmem with heq | htail
      · subst heq; rw [hpa] at hp; cases hp
      · obtain ⟨b, hb⟩ := ih a htail hpa
        exact ⟨b, by rw [List.find?, hp]; exact hb⟩

theorem find?_none_of_all {α : Type} (p : α → Bool) :
    ∀ (l : List α), (∀ a ∈ l, p a = false) → l.find? p = none := by
  intro l
  induction l with
  | nil => intro _; rfl
  | cons x xs ih =>
    intro h
    rw [List.find?, h x (List.mem_cons_self x xs)]
    exact ih fun a ha => h a (List.mem_cons_of_mem x ha)

theorem findSome?_first_index {α β : Type} (f : α → Option β) :
    ∀ (l : List α) (b : β), l.findSome? f = some b →
      ∃ n, ∃ hn : n < l.length, f (l.get ⟨n, hn⟩) = some b ∧
        ∀ m, ∀ hm : m < l.length, m < n → f (l.get ⟨m, hm⟩) = none := by
  intro l
  induction l with
  | nil => intro b h; simp [List.findSome?] at h
  | cons x xs ih =>
    intro b h
    rw [List.findSome?] at h
    cases hfx : f x with
    | some y =>
      rw [hfx] at h
      injection h with h
      subst h
      exact ⟨0, by simp, hfx, fun m hm hlt => absurd hlt (Nat.not_lt_zero m)⟩
    | none =>
      rw [hfx] at h
      obtain ⟨n, hn, hget, hbefore⟩ := ih b h
      refine ⟨n + 1, by simpa using Nat.succ_lt_succ hn, hget, ?_⟩
      intro m hm hlt
      match m with
      | 0 => exact hfx
      | Nat.succ k =>
        exact hbefore k (Nat.lt_of_succ_lt_succ hm) (Nat.lt_of_succ_lt_succ hlt)

theorem findSome?_none_of_all {α β : Type} (f : α → Option β) :
    ∀ (l : List α), (∀ a ∈ l, f a = none) → l.findSome? f = none := by
  intro l
  induction l with
  | nil => intro _; rfl
  | cons x xs ih =>
    intro h
    rw [List.findSome?, h x (List.mem_cons_self x xs)]
    exact ih fun a ha => h a (List.mem_cons_of_mem x ha)

theorem foldl_push_filterMap {α β : Type} (f : α → Option β) :
    ∀ (l : List α) (acc : List β),
      l.foldl (fun acc a => acc ++ (f a).toList) acc = acc ++ l.filterMap f := by
  intro l
  induction l with
  | nil => intro acc; simp
  | cons x xs ih =>
    intro acc
    rw [List.foldl, ih]
    cases hfx : f x <;> simp [List.filterMap_cons, hfx]

theorem foldl_push_append_join {α : Type} (f : α → List α) :
    ∀ (l : List α) (acc : List α),
      l.foldl (fun acc a => (acc ++ [a]) ++ f a) acc =
        acc ++ (l.map fun a => a :: f a).flatten := by
  intro l
  induction l with
  | nil => intro acc; simp
  | cons x xs ih =>
    intro acc
    rw [List.foldl, ih]
    simp

theorem findSome?_some_of_mem {α β : Type} (f : α → Option β) :
    ∀ (l : List α) (a : α) (b : β), a ∈ l → f a = some b →
      ∃ c, l.findSome? f = some c := by
  intro l
  induction l with
  | nil => intro a b h; simp at h
  | cons x xs ih =>
    intro a b hmem hfa
    cases hfx : f x with
    | some y => exact ⟨y, by rw [List.findSome?, hfx]⟩
    | none =>
      rcases List.mem_cons.mp hmem with heq | htail
      · subst heq; rw [hfa] at hfx; cases hfx
      · obtain ⟨c, hc⟩ := ih a b htail hfa
        exact ⟨c, by rw [List.findSome?, hfx]; exact hc⟩

/-!
Derived predicates naming the tests the three searches run, and
characterisation lemmas rewriting the source's fold/search loops into
`filterMap`/`flatten` form.
-/

/-- The item statement projection of one block statement. -/
def stmt_item (stmt : Stmt) : Option ItemId :=
  match stmt.kind with
  | StmtKind.Item i => some i
  | _ => none

/-- The test `find_storage_struct` runs on each item id. -/
def storage_struct_pred (cx : Context) (item_id : ItemId) : Bool :=
  let item := cx.items item_id
  has_storage_attr cx item.hir_id &&
    match item.kind with
    | ItemKind.Struct => true
    | _ => false

/-- The projection `find_contract_ty_hir` runs on each item id. -/
def contract_env_self_ty (cx : Context) (item_id : ItemId) : Option Ty :=
  let item := cx.items item_id
  match item.kind with
  | ItemKind.Impl item_impl =>
    match item_impl.of_trait with
    | some trait_ref =>
      if match_def_path cx trait_ref.trait_def_id
          ["ink_env", "contract", "ContractEnv"] then
        some item_impl.self_ty
      else
        none
    | none => none
  | _ => none

/-- The test the second phase of `find_contract_impl_id` runs on each item
id: an inherent (trait-less) impl whose self type equals the contract
type. -/
def contract_impl_pred (cx : Context) (t : Ty) (item_id : ItemId) : Bool :=
  let item := cx.items item_id
  match item.kind with
  | ItemKind.Impl item_impl =>
    item_impl.of_trait.isNone && eq_hir_struct_tys t item_impl.self_ty
  | _ => false

theorem find_storage_struct_eq_find (cx : Context) (item_ids : List ItemId) :
    find_storage_struct cx item_ids = item_ids.find? (storage_struct_pred cx) := rfl

theorem find_contract_ty_hir_eq_findSome (cx : Context) (item_ids : List ItemId) :
    find_contract_ty_hir cx item_ids =
      item_ids.findSome? (contract_env_self_ty cx) := rfl

theorem find_contract_impl_id_eq_find (cx : Context) (item_ids : List ItemId) :
    find_contract_impl_id cx item_ids =
      match find_contract_ty_hir cx item_ids with
      | none => none
      | some t => item_ids.find? (contract_impl_pred cx t) := rfl

theorem items_fold_eq_filterMap (stmts : List Stmt) (acc : List ItemId) :
    stmts.foldl
      (fun acc stmt =>
        match stmt.kind with
        | StmtKind.Item i => acc ++ [i]
        | _ => acc)
      acc = acc ++ stmts.filterMap stmt_item := by
  have hfun : (fun (acc : List ItemId) (stmt : Stmt) =>
      match stmt.kind with
      | StmtKind.Item i => acc ++ [i]
      | _ => acc) =
      fun (acc : List ItemId) (stmt : Stmt) => acc ++ (stmt_item stmt).toList := by
    funext acc stmt
    cases h : stmt.kind <;> simp [stmt_item, h]
  rw [hfun]
  exact foldl_push_filterMap stmt_item stmts acc

/-- The positive shape of `items_in_unnamed_const`: a unit-typed constant
with a block body yields exactly the item statements of the block. -/
theorem items_in_unnamed_const_shape (cx : Context) (id : ItemId)
    (ty : Ty) (u : Unit) (bid : BodyId) (blk : Block)
    (hkind : (cx.items id).kind = ItemKind.Const ty u bid)
    (hty : ty.kind = TyKind.Tup [])
    (hbody : ((cx.bodies bid).value).kind = ExprKind.Block blk) :
    items_in_unnamed_const cx id = blk.stmts.filterMap stmt_item := by
  unfold items_in_unnamed_const
  simp only [hkind, hty, hbody]
  rw [items_fold_eq_filterMap]
  simp

/-- An item is an expandable anonymous constant when it is a constant of
unit type whose initializer body is a block expression. -/
def unnamed_const_shape (cx : Context) (id : ItemId) : Prop :=
  ∃ ty u bid blk, (cx.items id).kind = ItemKind.Const ty u bid ∧
    ty.kind = TyKind.Tup [] ∧ ((cx.bodies bid).value).kind = ExprKind.Block blk

/-- The negative shape of `items_in_unnamed_const`: any item that is not a
unit-typed constant with a block body yields the empty list. -/
theorem items_in_unnamed_const_other (cx : Context) (id : ItemId)
    (h : ¬ unnamed_const_shape cx id) :
    items_in_unnamed_const cx id = [] := by
  unfold items_in_unnamed_const
  cases hk : (cx.items id).kind with
  | Const ty u bid =>
    cases hty : ty.kind with
    | Tup l =>
      cases l with
      | nil =>
        cases hb : ((cx.bodies bid).value).kind with
        | Block blk => exact absurd ⟨ty, u, bid, blk, hk, hty, hb⟩ h
        | other => simp [hty, hb]
      | cons a as => simp [hty]
    | Path q => simp [hty]
    | other => simp [hty]
  | Struct => rfl
  | Impl im => rfl
  | other => rfl

theorem expand_unnamed_consts_eq_flatten (cx : Context) (item_ids : List ItemId) :
    expand_unnamed_consts cx item_ids =
      (item_ids.map fun i => i :: items_in_unnamed_const cx i).flatten := by
  unfold expand_unnamed_consts
  rw [foldl_push_append_join]
  simp

theorem length_le_flatten_cons {α : Type} (f : α → List α) (l : List α) :
    l.length ≤ ((l.map fun a => a :: f a).flatten).length := by
  induction l with
  | nil => simp
  | cons x xs ih =>
    simp only [List.map_cons, List.flatten_cons, List.length_append,
      List.length_cons]
    omega

/-!
Concrete fixture: one query context exercising every shape the claims
mention.  Items: `0` a `ContractEnv` impl for `T`; `1` an inherent impl
whose self type spells `T` differently; `2` an unrelated trait impl for
`T`; `3` the declaration of an unrelated type `U`; `4` a struct with the
storage marker; `5`/`6` unit constants with block bodies (`6` nested in
`5`'s body, itself containing item `8`); `9` a constant of non-unit type;
`10` an inherent impl for `U`; `11` a struct without the marker; `12` a
non-struct whose attributes contain a marker.
-/

def tyT : Ty := Ty.mk (TyKind.Path (QPath.Resolved none ⟨Res.Def 1, ["T"]⟩))

def tyT2 : Ty := Ty.mk (TyKind.Path (QPath.Resolved none ⟨Res.Def 1, ["crate", "T"]⟩))

def tyU : Ty := Ty.mk (TyKind.Path (QPath.Resolved none ⟨Res.Def 2, ["U"]⟩))

def tyErr : Ty := Ty.mk (TyKind.Path (QPath.Resolved none ⟨Res.Err, ["Broken"]⟩))

def tyUnit : Ty := Ty.mk (TyKind.Tup [])

def itemsW : ItemId → Item
  | 0 => ⟨0, ItemKind.Impl ⟨some ⟨100⟩, tyT⟩⟩
  | 1 => ⟨1, ItemKind.Impl ⟨none, tyT2⟩⟩
  | 2 => ⟨2, ItemKind.Impl ⟨some ⟨101⟩, tyT⟩⟩
  | 3 => ⟨3, ItemKind.Struct⟩
  | 4 => ⟨4, ItemKind.Struct⟩
  | 5 => ⟨5, ItemKind.Const tyUnit () 0⟩
  | 6 => ⟨6, ItemKind.Const tyUnit () 1⟩
  | 9 => ⟨9, ItemKind.Const tyT () 0⟩
  | 10 => ⟨10, ItemKind.Impl ⟨none, tyU⟩⟩
  | 11 => ⟨11, ItemKind.Struct⟩
  | n => ⟨n, ItemKind.other⟩

def attrsW : HirId → String
  | 4 => "[attr(__ink_dylint_Storage)]"
  | 11 => "[attr(plain)]"
  | 12 => "[cfg(not(target_vendor = fortanix))]"
  | _ => ""

def bodiesW : BodyId → Body
  | 0 => ⟨⟨ExprKind.Block ⟨[⟨StmtKind.Item 6⟩, ⟨StmtKind.other⟩, ⟨StmtKind.Item 7⟩]⟩⟩⟩
  | 1 => ⟨⟨ExprKind.Block ⟨[⟨StmtKind.Item 8⟩]⟩⟩⟩
  | _ => ⟨⟨ExprKind.other⟩⟩

def def_pathW : DefId → List String
  | 100 => ["ink_env", "contract", "ContractEnv"]
  | 101 => ["core", "fmt", "Debug"]
  | _ => []

def cxW : Context := ⟨itemsW, attrsW, bodiesW, def_pathW⟩

/-!
Propositional characterisations of the predicates, used to state the
claims without quoting the Boolean code verbatim.
-/

/-- An item is an impl of the `ink_env::contract::ContractEnv` trait. -/
def is_contract_env_impl (cx : Context) (item_id : ItemId) : Bool :=
  match (cx.items item_id).kind with
  | ItemKind.Impl item_impl =>
    match item_impl.of_trait with
    | some trait_ref =>
      match_def_path cx trait_ref.trait_def_id ["ink_env", "contract", "ContractEnv"]
    | none => false
  | _ => false

/-- A type reference that is a resolved path naming declaration `d`. -/
def resolves_to_decl (t : Ty) (d : DefId) : Prop :=
  ∃ q p, t.kind = TyKind.Path (QPath.Resolved q p) ∧ p.res = Res.Def d

/-- The property `find_storage_struct` looks for, stated directly: a struct
whose rendered attribute text contains one of the two marker tokens. -/
def storage_qualifies (cx : Context) (i : ItemId) : Prop :=
  (cx.items i).kind = ItemKind.Struct ∧
    (str_contains (cx.attrs (cx.items i).hir_id) INK_STORAGE_1 = true ∨
     str_contains (cx.attrs (cx.items i).hir_id) INK_STORAGE_2 = true)

theorem storage_qualifies_iff (cx : Context) (i : ItemId) :
    storage_qualifies cx i ↔ storage_struct_pred cx i = true := by
  unfold storage_qualifies storage_struct_pred has_storage_attr
  cases hk : (cx.items i).kind <;>
    simp [hk, Bool.and_eq_true, Bool.or_eq_true]

theorem contract_impl_pred_iff (cx : Context) (t : Ty) (i : ItemId) :
    contract_impl_pred cx t i = true ↔
      ∃ im, (cx.items i).kind = ItemKind.Impl im ∧ im.of_trait = none ∧
        eq_hir_struct_tys t im.self_ty = true := by
  unfold contract_impl_pred
  cases hk : (cx.items i).kind <;>
    simp [hk, Bool.and_eq_true, Option.isNone_iff_eq_none]

theorem contract_env_self_ty_some_iff (cx : Context) (i : ItemId) (t : Ty) :
    contract_env_self_ty cx i = some t ↔
      ∃ im tr, (cx.items i).kind = ItemKind.Impl im ∧ im.of_trait = some tr ∧
        cx.def_path tr.trait_def_id = ["ink_env", "contract", "ContractEnv"] ∧
        im.self_ty = t := by
  unfold contract_env_self_ty
  cases hk : (cx.items i).kind with
  | Impl im =>
    cases ht : im.of_trait with
    | some tr =>
      by_cases hm : match_def_path cx tr.trait_def_id
          ["ink_env", "contract", "ContractEnv"] = true
      · have hpath : cx.def_path tr.trait_def_id =
            ["ink_env", "contract", "ContractEnv"] := by
          have := hm
          unfold match_def_path at this
          exact beq_iff_eq.mp this
        simp [hk, ht, hm, hpath]
      · have hpath : ¬ cx.def_path tr.trait_def_id =
            ["ink_env", "contract", "ContractEnv"] := by
          intro hcontra
          exact hm (by unfold match_def_path; exact beq_iff_eq.mpr hcontra)
        simp [hk, ht, hm, hpath]
    | none => simp [hk, ht]
  | Struct => simp [hk]
  | Const ty u bid => simp [hk]
  | other => simp [hk]

theorem contract_env_self_ty_none_iff (cx : Context) (i : ItemId) :
    contract_env_self_ty cx i = none ↔ is_contract_env_impl cx i = false := by
  unfold contract_env_self_ty is_contract_env_impl
  cases hk : (cx.items i).kind with
  | Impl im =>
    cases ht : im.of_trait with
    | some tr =>
      by_cases hm : match_def_path cx tr.trait_def_id
          ["ink_env", "contract", "ContractEnv"] = true
      · simp [hk, ht, hm]
      · simp [Bool.not_eq_true] at hm
        simp [hk, ht, hm]
    | none => simp [hk, ht]
  | Struct => simp [hk]
  | Const ty u bid => simp [hk]
  | other => simp [hk]

theorem flatten_map_cons_nil {α : Type} (f : α → List α) :
    ∀ (l : List α), (∀ a ∈ l, f a = []) →
      (l.map fun a => a :: f a).flatten = l := by
  intro l
  induction l with
  | nil => intro _; rfl
  | cons x xs ih =>
    intro h
    rw [List.map_cons, List.flatten_cons, h x (List.mem_cons_self x xs),
      ih fun a ha => h a (List.mem_cons_of_mem x ha)]
    rfl

theorem find?_all_false_of_none {α : Type} (p : α → Bool) :
    ∀ (l : List α), l.find? p = none → ∀ a ∈ l, p a = false := by
  intro l
  induction l with
  | nil => intro _ a ha; cases ha
  | cons x xs ih =>
    intro h a ha
    rw [List.find?] at h
    cases hp : p x with
    | true => rw [hp] at h; cases h
    | false =>
      rw [hp] at h
      rcases List.mem_cons.mp ha with rfl | htail
      · exact hp
      · exact ih h a htail

/-!
Claim theorems.
-/

/-- C1: when the contract type `t` has been found among the items and some
inherent impl for `t` is present, `find_contract_impl_id` returns the first
item that is an inherent (trait-less) impl whose self type equals `t`; in
particular the returned item is never a trait impl nor an item of another
type. -/
theorem C1_find_contract_impl_first_inherent (cx : Context) (ids : List ItemId)
    (t : Ty)
    (hty : find_contract_ty_hir cx ids = some t)
    (hex : ∃ i ∈ ids, contract_impl_pred cx t i = true) :
    ∃ j, find_contract_impl_id cx ids = some j ∧
      (∃ im, (cx.items j).kind = ItemKind.Impl im ∧ im.of_trait = none ∧
        eq_hir_struct_tys t im.self_ty = true) ∧
      ∃ n, ∃ hn : n < ids.length, ids.get ⟨n, hn⟩ = j ∧
        ∀ m, ∀ hm : m < ids.length, m < n →
          contract_impl_pred cx t (ids.get ⟨m, hm⟩) = false := by
  obtain ⟨i, hi, hp⟩ := hex
  obtain ⟨j, hj⟩ := find?_some_of_mem (contract_impl_pred cx t) ids i hi hp
  obtain ⟨n, hn, hget, hpj, hbefore⟩ :=
    find?_first_index (contract_impl_pred cx t) ids j hj
  refine ⟨j, ?_, (contract_impl_pred_iff cx t j).mp hpj, n, hn, hget, hbefore⟩
  rw [find_contract_impl_id_eq_find]
  simp only [hty]
  exact hj

/-- C1 witness: items `[0, 1, 2, 3]` of the fixture are a `ContractEnv`
impl for `T`, an inherent impl for `T`, an unrelated trait impl for `T`,
and the unrelated struct `U`; the result is the inherent impl `1`. -/
theorem C1_witness :
    find_contract_ty_hir cxW [0, 1, 2, 3] = some tyT ∧
    (∃ i ∈ ([0, 1, 2, 3] : List ItemId), contract_impl_pred cxW tyT i = true) ∧
    ∃ j, find_contract_impl_id cxW [0, 1, 2, 3] = some j ∧
      (∃ im, (cxW.items j).kind = ItemKind.Impl im ∧ im.of_trait = none ∧
        eq_hir_struct_tys tyT im.self_ty = true) ∧
      ∃ n, ∃ hn : n < ([0, 1, 2, 3] : List ItemId).length,
        ([0, 1, 2, 3] : List ItemId).get ⟨n, hn⟩ = j ∧
        ∀ m, ∀ hm : m < ([0, 1, 2, 3] : List ItemId).length, m < n →
          contract_impl_pred cxW tyT (([0, 1, 2, 3] : List ItemId).get ⟨m, hm⟩) =
            false := by
  have h1 : find_contract_ty_hir cxW [0, 1, 2, 3] = some tyT := rfl
  have h2 : ∃ i ∈ ([0, 1, 2, 3] : List ItemId), contract_impl_pred cxW tyT i = true :=
    ⟨1, by simp, rfl⟩
  exact ⟨h1, h2, C1_find_contract_impl_first_inherent cxW [0, 1, 2, 3] tyT h1 h2⟩

/-- C2: when no item is an impl of the contract-environment trait, the
contract type search yields `none`, and `find_contract_impl_id` returns
`none` whatever else (for instance an inherent impl) the list contains. -/
theorem C2_no_contract_env_gives_none (cx : Context) (ids : List ItemId)
    (h : ∀ i ∈ ids, is_contract_env_impl cx i = false) :
    find_contract_ty_hir cx ids = none ∧ find_contract_impl_id cx ids = none := by
  have hnone : find_contract_ty_hir cx ids = none := by
    rw [find_contract_ty_hir_eq_findSome]
    exact findSome?_none_of_all _ ids fun a ha =>
      (contract_env_self_ty_none_iff cx a).mpr (h a ha)
  refine ⟨hnone, ?_⟩
  rw [find_contract_impl_id_eq_find]
  simp only [hnone]

/-- C2 witness: `[10, 3]` holds an inherent impl (item `10`) but no
`ContractEnv` impl, and the result is `none`. -/
theorem C2_witness :
    (∀ i ∈ ([10, 3] : List ItemId), is_contract_env_impl cxW i = false) ∧
    (∃ im, (cxW.items 10).kind = ItemKind.Impl im ∧ im.of_trait = none) ∧
    find_contract_ty_hir cxW [10, 3] = none ∧
    find_contract_impl_id cxW [10, 3] = none := by
  have h : ∀ i ∈ ([10, 3] : List ItemId), is_contract_env_impl cxW i = false := by
    decide
  exact ⟨h, ⟨⟨none, tyU⟩, rfl, rfl⟩, C2_no_contract_env_gives_none cxW [10, 3] h⟩

/-- C3: `find_storage_struct` returns exactly the first item that is a
struct whose rendered attribute text contains one of the two marker
tokens; it returns `none` precisely when no item qualifies. -/
theorem C3_find_storage_struct_spec (cx : Context) (ids : List ItemId) :
    (∀ j, find_storage_struct cx ids = some j →
      storage_qualifies cx j ∧
      ∃ n, ∃ hn : n < ids.length, ids.get ⟨n, hn⟩ = j ∧
        ∀ m, ∀ hm : m < ids.length, m < n →
          ¬ storage_qualifies cx (ids.get ⟨m, hm⟩)) ∧
    (find_storage_struct cx ids = none ↔ ∀ i ∈ ids, ¬ storage_qualifies cx i) := by
  constructor
  · intro j hj
    rw [find_storage_struct_eq_find] at hj
    obtain ⟨n, hn, hget, hpj, hbefore⟩ := find?_first_index _ ids j hj
    refine ⟨(storage_qualifies_iff cx j).mpr hpj, n, hn, hget, ?_⟩
    intro m hm hlt hq
    have hpm := (storage_qualifies_iff cx _).mp hq
    rw [hbefore m hm hlt] at hpm
    cases hpm
  · rw [find_storage_struct_eq_find]
    constructor
    · intro hnone i hi hq
      have hall := find?_all_false_of_none _ ids hnone i hi
      have hpm := (storage_qualifies_iff cx i).mp hq
      rw [hall] at hpm
      cases hpm
    · intro hall
      refine find?_none_of_all _ ids fun a ha => ?_
      cases hb : storage_struct_pred cx a with
      | false => rfl
      | true => exact absurd ((storage_qualifies_iff cx a).mpr hb) (hall a ha)

/-- C3 witness: in `[3, 12, 11, 4, 1]` only item `4` is a marker-carrying
struct (item `12` carries a marker but is not a struct, item `11` is a
struct without a marker), and it is returned; `[3, 12]` has no qualifying
item and yields `none`. -/
theorem C3_witness :
    (storage_qualifies cxW 4 ∧
      ∃ n, ∃ hn : n < ([3, 12, 11, 4, 1] : List ItemId).length,
        ([3, 12, 11, 4, 1] : List ItemId).get ⟨n, hn⟩ = 4 ∧
        ∀ m, ∀ hm : m < ([3, 12, 11, 4, 1] : List ItemId).length, m < n →
          ¬ storage_qualifies cxW (([3, 12, 11, 4, 1] : List ItemId).get ⟨m, hm⟩)) ∧
    find_storage_struct cxW [3, 12] = none := by
  refine ⟨(C3_find_storage_struct_spec cxW [3, 12, 11, 4, 1]).1 4 rfl, ?_⟩
  refine (C3_find_storage_struct_spec cxW [3, 12]).2.mpr ?_
  intro i hi hq
  have hp := (storage_qualifies_iff cxW i).mp hq
  revert hp
  simp only [List.mem_cons, List.not_mem_nil, or_false] at hi
  rcases hi with rfl | rfl <;> decide

/-- C4: `expand_unnamed_consts` emits each input id followed by its nested
ids, concatenated in input order, so the output is at least as long as the
input; and expansion is one level only — in the fixture, item `6` (nested
in item `5`) is itself an expandable constant containing item `8`, yet
expanding `[5]` yields `[5, 6, 7]` without descending into `6`. -/
theorem C4_expand_unnamed_consts_spec (cx : Context) (ids : List ItemId) :
    expand_unnamed_consts cx ids =
      (ids.map fun i => i :: items_in_unnamed_const cx i).flatten ∧
    ids.length ≤ (expand_unnamed_consts cx ids).length ∧
    items_in_unnamed_const cxW 6 = [8] ∧
    expand_unnamed_consts cxW [5] = [5, 6, 7] := by
  refine ⟨expand_unnamed_consts_eq_flatten cx ids, ?_, rfl, rfl⟩
  rw [expand_unnamed_consts_eq_flatten]
  exact length_le_flatten_cons _ ids

/-- C5: `items_in_unnamed_const` (the spec's `nested_items_of`) returns the
item statements of the block, in order and skipping non-item statements,
when the item is a unit-typed constant with a block body, and the empty
list for every other shape. -/
theorem C5_items_in_unnamed_const_spec (cx : Context) (id : ItemId) :
    (∀ ty u bid blk,
      (cx.items id).kind = ItemKind.Const ty u bid →
      ty.kind = TyKind.Tup [] →
      ((cx.bodies bid).value).kind = ExprKind.Block blk →
      items_in_unnamed_const cx id = blk.stmts.filterMap stmt_item) ∧
    (¬ unnamed_const_shape cx id → items_in_unnamed_const cx id = []) :=
  ⟨fun ty u bid blk hk ht hb =>
    items_in_unnamed_const_shape cx id ty u bid blk hk ht hb,
   items_in_unnamed_const_other cx id⟩

/-- C5 witness: fixture item `5` is `const _: () = { item 6; non-item;
item 7 }` and yields `[6, 7]`; item `9` is a constant of non-unit type and
yields `[]`. -/
theorem C5_witness :
    (cxW.items 5).kind = ItemKind.Const tyUnit () 0 ∧
    tyUnit.kind = TyKind.Tup [] ∧
    ((cxW.bodies 0).value).kind =
      ExprKind.Block ⟨[⟨StmtKind.Item 6⟩, ⟨StmtKind.other⟩, ⟨StmtKind.Item 7⟩]⟩ ∧
    items_in_unnamed_const cxW 5 = [6, 7] ∧
    ¬ unnamed_const_shape cxW 9 ∧
    items_in_unnamed_const cxW 9 = [] := by
  have hnot : ¬ unnamed_const_shape cxW 9 := by
    rintro ⟨ty, u, bid, blk, hk, hty, hb⟩
    have hk' : ItemKind.Const tyT () 0 = ItemKind.Const ty u bid := hk
    injection hk' with h1 h2 h3
    rw [← h1] at hty
    have hty' : TyKind.Path (QPath.Resolved none ⟨Res.Def 1, ["T"]⟩) =
        TyKind.Tup [] := hty
    cases hty'
  refine ⟨rfl, rfl, rfl, ?_, hnot, (C5_items_in_unnamed_const_spec cxW 9).2 hnot⟩
  have h5 := (C5_items_in_unnamed_const_spec cxW 5).1 tyUnit () 0
    ⟨[⟨StmtKind.Item 6⟩, ⟨StmtKind.other⟩, ⟨StmtKind.Item 7⟩]⟩ rfl rfl rfl
  exact h5.trans rfl

/-- C7: `find_contract_ty_hir` returns the self type of the first impl of
the `ink_env::contract::ContractEnv` trait (every earlier item is not such
an impl), and returns `none` when no item implements that trait. -/
theorem C7_find_contract_ty_spec (cx : Context) (ids : List ItemId) :
    (∀ t, find_contract_ty_hir cx ids = some t →
      ∃ n, ∃ hn : n < ids.length,
        (∃ im tr, (cx.items (ids.get ⟨n, hn⟩)).kind = ItemKind.Impl im ∧
          im.of_trait = some tr ∧
          cx.def_path tr.trait_def_id = ["ink_env", "contract", "ContractEnv"] ∧
          im.self_ty = t) ∧
        ∀ m, ∀ hm : m < ids.length, m < n →
          is_contract_env_impl cx (ids.get ⟨m, hm⟩) = false) ∧
    ((∀ i ∈ ids, is_contract_env_impl cx i = false) →
      find_contract_ty_hir cx ids = none) := by
  constructor
  · intro t ht
    rw [find_contract_ty_hir_eq_findSome] at ht
    obtain ⟨n, hn, hsome, hbefore⟩ := findSome?_first_index _ ids t ht
    refine ⟨n, hn, (contract_env_self_ty_some_iff cx _ t).mp hsome, ?_⟩
    intro m hm hlt
    exact (contract_env_self_ty_none_iff cx _).mp (hbefore m hm hlt)
  · intro hall
    rw [find_contract_ty_hir_eq_findSome]
    exact findSome?_none_of_all _ ids fun a ha =>
      (contract_env_self_ty_none_iff cx a).mpr (hall a ha)

/-- C7 witness: in `[3, 0, 2]` the first (and only) `ContractEnv` impl is
item `0`, with self type `T`; in `[2, 3, 10]` there is none. -/
theorem C7_witness :
    (∃ n, ∃ hn : n < ([3, 0, 2] : List ItemId).length,
      (∃ im tr,
        (cxW.items (([3, 0, 2] : List ItemId).get ⟨n, hn⟩)).kind = ItemKind.Impl im ∧
        im.of_trait = some tr ∧
        cxW.def_path tr.trait_def_id = ["ink_env", "contract", "ContractEnv"] ∧
        im.self_ty = tyT) ∧
      ∀ m, ∀ hm : m < ([3, 0, 2] : List ItemId).length, m < n →
        is_contract_env_impl cxW (([3, 0, 2] : List ItemId).get ⟨m, hm⟩) = false) ∧
    find_contract_ty_hir cxW [2, 3, 10] = none := by
  refine ⟨(C7_find_contract_ty_spec cxW [3, 0, 2]).1 tyT rfl, ?_⟩
  exact (C7_find_contract_ty_spec cxW [2, 3, 10]).2 (by decide)

/-- C8: on items of unexpected kind every operation falls through its
structural pattern matches to the not-found/empty result: the locators
return `none`, nested-item extraction returns `[]`, expansion returns the
input unchanged, and the type comparator returns `false` on non-path
shapes (totality itself holds by construction: every embedded operation
is a total function). -/
theorem C8_out_of_shape_total (cx : Context) (ids : List ItemId)
    (h : ∀ i ∈ ids, (cx.items i).kind = ItemKind.other) :
    find_storage_struct cx ids = none ∧
    find_contract_ty_hir cx ids = none ∧
    find_contract_impl_id cx ids = none ∧
    (∀ i ∈ ids, items_in_unnamed_const cx i = []) ∧
    expand_unnamed_consts cx ids = ids ∧
    ∀ t, eq_hir_struct_tys (Ty.mk TyKind.other) t = false ∧
      eq_hir_struct_tys t (Ty.mk TyKind.other) = false := by
  have hnested : ∀ i ∈ ids, items_in_unnamed_const cx i = [] := by
    intro i hi
    refine items_in_unnamed_const_other cx i ?_
    rintro ⟨ty, u, bid, blk, hk, hty, hb⟩
    rw [h i hi] at hk
    cases hk
  have htyn : find_contract_ty_hir cx ids = none := by
    rw [find_contract_ty_hir_eq_findSome]
    refine findSome?_none_of_all _ ids fun a ha => ?_
    refine (contract_env_self_ty_none_iff cx a).mpr ?_
    simp [is_contract_env_impl, h a ha]
  refine ⟨?_, htyn, ?_, hnested, ?_, ?_⟩
  · rw [find_storage_struct_eq_find]
    refine find?_none_of_all _ ids fun a ha => ?_
    simp [storage_struct_pred, h a ha]
  · rw [find_contract_impl_id_eq_find]
    simp only [htyn]
  · rw [expand_unnamed_consts_eq_flatten]
    exact flatten_map_cons_nil _ ids hnested
  · intro t
    cases t with
    | mk k =>
      constructor
      · cases k with
        | Path q =>
          cases q with
          | Resolved o p => rfl
          | other => rfl
        | Tup l => rfl
        | other => rfl
      · cases k with
        | Path q =>
          cases q with
          | Resolved o p => rfl
          | other => rfl
        | Tup l => rfl
        | other => rfl

/-- C8 witness: fixture items `7` and `8` have the catch-all kind, and all
operations yield their not-found results on `[7, 8]`. -/
theorem C8_witness :
    (∀ i ∈ ([7, 8] : List ItemId), (cxW.items i).kind = ItemKind.other) ∧
    find_storage_struct cxW [7, 8] = none ∧
    find_contract_ty_hir cxW [7, 8] = none ∧
    find_contract_impl_id cxW [7, 8] = none ∧
    (∀ i ∈ ([7, 8] : List ItemId), items_in_unnamed_const cxW i = []) ∧
    expand_unnamed_consts cxW [7, 8] = [7, 8] ∧
    ∀ t, eq_hir_struct_tys (Ty.mk TyKind.other) t = false ∧
      eq_hir_struct_tys t (Ty.mk TyKind.other) = false := by
  have h : ∀ i ∈ ([7, 8] : List ItemId), (cxW.items i).kind = ItemKind.other := by
    intro i hi
    simp only [List.mem_cons, List.not_mem_nil, or_false] at hi
    rcases hi with rfl | rfl <;> rfl
  exact ⟨h, C8_out_of_shape_total cxW [7, 8] h⟩

/-- C9: when no input item is an expandable unit constant,
`expand_unnamed_consts` is the identity on the input list. -/
theorem C9_expand_identity (cx : Context) (ids : List ItemId)
    (h : ∀ i ∈ ids, items_in_unnamed_const cx i = []) :
    expand_unnamed_consts cx ids = ids := by
  rw [expand_unnamed_consts_eq_flatten]
  exact flatten_map_cons_nil _ ids h

/-- C9 witness: `[3, 9, 10]` (a struct, a non-unit constant, an impl) has
nothing to expand and is returned unchanged. -/
theorem C9_witness :
    (∀ i ∈ ([3, 9, 10] : List ItemId), items_in_unnamed_const cxW i = []) ∧
    expand_unnamed_consts cxW [3, 9, 10] = [3, 9, 10] := by
  have h : ∀ i ∈ ([3, 9, 10] : List ItemId), items_in_unnamed_const cxW i = [] := by
    decide
  exact ⟨h, C9_expand_identity cxW [3, 9, 10] h⟩

/-- C10: on two resolved-path type references, `eq_hir_struct_tys` just
compares the two resolution values, with no requirement that resolution
succeeded; in particular equal values — even two failed resolutions —
compare true. -/
theorem C10_compares_res_values (lhs rhs : Ty) (q1 q2 : Option Ty) (p1 p2 : Path)
    (h1 : lhs.kind = TyKind.Path (QPath.Resolved q1 p1))
    (h2 : rhs.kind = TyKind.Path (QPath.Resolved q2 p2)) :
    eq_hir_struct_tys lhs rhs = (p1.res == p2.res) ∧
    (p1.res = p2.res → eq_hir_struct_tys lhs rhs = true) := by
  have heq : eq_hir_struct_tys lhs rhs = (p1.res == p2.res) := by
    unfold eq_hir_struct_tys
    simp only [h1, h2]
  refine ⟨heq, fun hres => ?_⟩
  rw [heq, hres]
  simp

/-- C10 witness: both sides the same unresolved (error-resolution) path;
the comparison returns `true`. -/
theorem C10_witness :
    tyErr.kind = TyKind.Path (QPath.Resolved none ⟨Res.Err, ["Broken"]⟩) ∧
    eq_hir_struct_tys tyErr tyErr = true := by
  refine ⟨rfl, ?_⟩
  exact (C10_compares_res_values tyErr tyErr none none ⟨Res.Err, ["Broken"]⟩
    ⟨Res.Err, ["Broken"]⟩ rfl rfl).2 rfl

/-- C6 counterexample: the two sides are the same failed-resolution path
reference; `eq_hir_struct_tys` returns `true`, yet neither side resolves
to any declaration, refuting "true only if both resolve to the identical
declaration". -/
theorem C6_counterexample :
    eq_hir_struct_tys tyErr tyErr = true ∧ ∀ d, ¬ resolves_to_decl tyErr d := by
  refine ⟨rfl, ?_⟩
  rintro d ⟨q, p, hk, hres⟩
  have hk' : TyKind.Path (QPath.Resolved none ⟨Res.Err, ["Broken"]⟩) =
      TyKind.Path (QPath.Resolved q p) := hk
  injection hk' with h
  injection h with hq hp
  rw [← hp] at hres
  simp at hres

/-- C6 (amended): `eq_hir_struct_tys` returns true iff both type references
are resolved-path-form references and carry equal resolution values
(either the identical declaration or the identical non-declaration
resolution, such as the error value); any other pairing of shapes yields
false, regardless of surface spelling. -/
theorem C6_amended_eq_hir_struct_tys (lhs rhs : Ty) :
    eq_hir_struct_tys lhs rhs = true ↔
      ∃ q1 p1 q2 p2, lhs.kind = TyKind.Path (QPath.Resolved q1 p1) ∧
        rhs.kind = TyKind.Path (QPath.Resolved q2 p2) ∧ p1.res = p2.res := by
  cases lhs with
  | mk lk =>
    cases rhs with
    | mk rk =>
      cases lk with
      | Path q1 =>
        cases q1 with
        | Resolved o1 p1 =>
          cases rk with
          | Path q2 =>
            cases q2 with
            | Resolved o2 p2 =>
              simp only [eq_hir_struct_tys, Ty.kind, beq_iff_eq,
                TyKind.Path.injEq, QPath.Resolved.injEq]
              constructor
              · intro h
                exact Exists.intro o1 (Exists.intro p1 (Exists.intro o2
                  (Exists.intro p2 (And.intro (And.intro rfl rfl)
                    (And.intro (And.intro rfl rfl) h)))))
              · rintro ⟨q1, w1, q2, w2, ⟨hq1, hw1⟩, ⟨hq2, hw2⟩, h⟩
                subst hw1
                subst hw2
                exact h
            | other => simp [eq_hir_struct_tys, Ty.kind]
          | Tup l => simp [eq_hir_struct_tys, Ty.kind]
          | other => simp [eq_hir_struct_tys, Ty.kind]
        | other =>
          cases rk with
          | Path q2 =>
            cases q2 with
            | Resolved o2 p2 => simp [eq_hir_struct_tys, Ty.kind]
            | other => simp [eq_hir_struct_tys, Ty.kind]
          | Tup l => simp [eq_hir_struct_tys, Ty.kind]
          | other => simp [eq_hir_struct_tys, Ty.kind]
      | Tup l =>
        cases rk with
        | Path q2 =>
          cases q2 with
          | Resolved o2 p2 => simp [eq_hir_struct_tys, Ty.kind]
          | other => simp [eq_hir_struct_tys, Ty.kind]
        | Tup l2 => simp [eq_hir_struct_tys, Ty.kind]
        | other => simp [eq_hir_struct_tys, Ty.kind]
      | other =>
        cases rk with
        | Path q2 =>
          cases q2 with
          | Resolved o2 p2 => simp [eq_hir_struct_tys, Ty.kind]
          | other => simp [eq_hir_struct_tys, Ty.kind]
        | Tup l2 => simp [eq_hir_struct_tys, Ty.kind]
        | other => simp [eq_hir_struct_tys, Ty.kind]

end InkUtils
